import Mathlib

/-!
Verification development for the nurse-schedule optimizer
(backend/app/algorithms/scheduler.py and the scheduling/ package).

A schedule grid is a dense days-by-workers matrix of shift codes,
exactly as in the Python source: 0 = day, 1 = evening, 2 = night, 3 = off.
Scores are modelled over the rationals (the Python code computes with
floats, but every constant appearing in the engine is a decimal literal,
so the arithmetic is exact); the probabilistic draws of the optimizers
(random.random, random.randint, random.sample) are passed in explicitly
as oracle arguments, and a call of random.randint on an empty range,
which raises ValueError in Python, is modelled by an Option-valued
result where none stands for the raised exception.
-/

set_option maxRecDepth 4000

/-- A schedule grid: outer list indexed by day, inner list indexed by
worker, each cell a shift code 0..3 (3 = off), as `List[List[int]]` in
`scheduler.py`. -/
abbrev Sched := List (List ℕ)

/-- The `self.shift_types` list of the scheduler. -/
def shiftTypes : List String := ["day", "evening", "night", "off"]

/-- Python `self.shift_types.index(name)`: `some i` on the four known
names and `none` for the ValueError raised on an unknown name. -/
def indexOfShift (s : String) : Option ℕ :=
  if s = "day" then some 0
  else if s = "evening" then some 1
  else if s = "night" then some 2
  else if s = "off" then some 3
  else none

/-- An employee record as consumed by the scheduler: the `dict` fields
the engine reads, each optional exactly where the source uses
`emp.get(...)` with a default. -/
structure Employee where
  id : ℤ
  role : Option String
  employmentType : Option String
  yearsExperience : Option ℤ
deriving DecidableEq

/-- Default employee used for (unreachable in the source) out-of-range
list accesses. -/
def defaultEmployee : Employee := ⟨0, none, none, none⟩

/-- The date attached to a shift request, as the duck-typed Python value:
an object with a `day` attribute (datetime.date), a string that parses
with strptime as Y-m-d (carrying its day of month), a string that fails
to parse (strptime raises ValueError), or any other object
(AttributeError on `.day`). -/
inductive ReqDate where
  | withDay (d : ℤ)
  | strDate (d : ℤ)
  | badStr
  | otherObj
deriving DecidableEq

/-- A shift request record (employee_id, request_date, shift_type,
request_type). -/
structure ShiftRequest where
  employeeId : ℤ
  requestDate : ReqDate
  shiftType : String
  requestType : String
deriving DecidableEq

/-- The 0-based day index the scheduler derives from a request date
(`request_date.day - 1`), or `none` when the extraction raises and the
source skips the request (unparseable string, object without `.day`). -/
def requestDayIndex : ReqDate → Option ℤ
  | ReqDate.withDay d => some (d - 1)
  | ReqDate.strDate d => some (d - 1)
  | ReqDate.badStr => none
  | ReqDate.otherObj => none

/-- The constraints dictionary: the keys the engine reads, each `none`
when absent, plus a list of unrelated entries that ride along through
deep copies untouched. -/
structure ConstraintsObj where
  requiredStaff : Option (List (String × ℕ))
  employeeRoles : Option (List (ℤ × String))
  employmentTypes : Option (List (ℤ × String))
  experienceLevels : Option (List (ℤ × ℤ))
  newNursePairs : Option (List (ℤ × List ℤ))
  otherEntries : List (String × ℤ)
deriving DecidableEq

/-- Empty constraints dictionary. -/
def emptyConstraints : ConstraintsObj := ⟨none, none, none, none, none, []⟩

/-- The default required staffing `{"day": 3, "evening": 2, "night": 1}`. -/
def defaultRequiredStaff : List (String × ℕ) := [("day", 3), ("evening", 2), ("night", 1)]

/-- Lookup in an association-list dictionary with a default
(`d.get(k, dflt)`). -/
def dictGetD {α : Type} (m : List (String × α)) (k : String) (dflt : α) : α :=
  match m.find? (fun p => p.1 = k) with
  | some p => p.2
  | none => dflt

/-- Python `employees` index search `_get_employee_index`: first index
whose record has the given id, else `none`. -/
def employeeIndex (eid : ℤ) : List Employee → Option ℕ
  | [] => none
  | e :: rest =>
    if e.id = eid then some 0
    else (employeeIndex eid rest).map (· + 1)

/-- The cell of a grid at (day, worker), with the OFF code 3 outside the
grid (the source only indexes inside the grid). -/
def cellAt (sched : Sched) (day empIdx : ℕ) : ℕ :=
  (sched.getD day []).getD empIdx 3

/-- The column of one worker over the first `days` days, mirroring the
loops `for day in range(self.days_in_month): schedule[day][emp_idx]`. -/
def empColumn (sched : Sched) (days empIdx : ℕ) : List ℕ :=
  (List.range days).map (fun d => cellAt sched d empIdx)

/-- Helper of `maxRun`: current streak and best streak, updated exactly
like `current_consecutive` / `max_consecutive` in the source. -/
def maxRunAux (p : ℕ → Bool) : List ℕ → ℕ → ℕ → ℕ
  | [], _, best => best
  | c :: rest, cur, best =>
    if p c then maxRunAux p rest (cur + 1) (max best (cur + 1))
    else maxRunAux p rest 0 best

/-- Longest run of consecutive cells satisfying `p` in a column. -/
def maxRun (p : ℕ → Bool) (cells : List ℕ) : ℕ := maxRunAux p cells 0 0

/-- Number of whole-or-partial 7-day blocks the source iterates over:
`days // 7 + (1 if days % 7 > 0 else 0)`. -/
def weekCount (days : ℕ) : ℕ := days / 7 + (if days % 7 > 0 then 1 else 0)

/-- The list `[a, a+1, ..., b-1]`. -/
def rangeFromTo (a b : ℕ) : List ℕ := (List.range (b - a)).map (a + ·)

/-- Off-day count of worker column `col` inside the source's week block
`w`, i.e. over days `[7*w, min(7*(w+1), days))`. -/
def weekOffCount (col : List ℕ) (days w : ℕ) : ℕ :=
  ((rangeFromTo (7 * w) (min (7 * (w + 1)) days)).filter
    (fun d => col.getD d 3 == 3)).length

/-- Per-worker part of `_legal_compliance_score`, written exactly as the
source accumulates it: consecutive-work check, consecutive-nights check,
then a fold over the week blocks subtracting 200 per block without an
off day. -/
def legalPerEmp (col : List ℕ) (days : ℕ) : ℚ :=
  let mcw := maxRun (fun c => !(c == 3)) col
  let s1 : ℚ := if mcw > 5 then 0 - ((mcw : ℚ) - 5) * 100 else 0
  let mcn := maxRun (fun c => c == 2) col
  let s2 : ℚ := if mcn > 3 then s1 - ((mcn : ℚ) - 3) * 150 else s1
  (List.range (weekCount days)).foldl
    (fun s w => if weekOffCount col days w == 0 then s - 200 else s) s2

/-- `_legal_compliance_score`: sum of the per-worker legal terms. -/
def legalComplianceScore (sched : Sched) (numEmps days : ℕ) : ℚ :=
  (List.range numEmps).foldl
    (fun s e => s + legalPerEmp (empColumn sched days e) days) 0

/-- Number of cells of a day row equal to the shift code
(`day_schedule.count(shift_type)`). -/
def rowCount (row : List ℕ) (shift : ℕ) : ℕ := (row.filter (fun c => c == shift)).length

/-- `_staffing_safety_score`: per day and per working shift, -100 per
missing worker, +10 when the requirement is met. -/
def staffingSafetyScore (sched : Sched) (cons : ConstraintsObj) : ℚ :=
  let req := cons.requiredStaff.getD defaultRequiredStaff
  sched.foldl (fun s row =>
    (List.range 3).foldl (fun s sh =>
      let actual := rowCount row sh
      let required := dictGetD req (shiftTypes.getD sh "") 1
      if actual < required then s - ((required : ℚ) - actual) * 100
      else s + 10) s) 0

/-- True when the worker id is a key of the `new_nurse_pairs`
dictionary (`emp['id'] in new_nurse_pairs`). -/
def isNewNurseKey (pairs : List (ℤ × List ℤ)) (eid : ℤ) : Bool :=
  pairs.any (fun p => p.1 == eid)

/-- `_role_compliance_score`: per (day, working shift), -50 for each new
nurse on the shift when no senior-eligible worker shares it and +10 when
one does; then -25 per night shift of every part-time worker. -/
def roleComplianceScore (sched : Sched) (emps : List Employee) (cons : ConstraintsObj) : ℚ :=
  let pairs := cons.newNursePairs.getD []
  let pairScore : ℚ := sched.foldl (fun s row =>
    (List.range 3).foldl (fun s sh =>
      let shiftWorkers := (List.range row.length).filter (fun i => row.getD i 3 == sh)
      let newWorking := shiftWorkers.filter
        (fun i => isNewNurseKey pairs (emps.getD i defaultEmployee).id)
      let seniorWorking := shiftWorkers.filter (fun i =>
        !(isNewNurseKey pairs (emps.getD i defaultEmployee).id) &&
        decide ((emps.getD i defaultEmployee).yearsExperience.getD 1 ≥ 3))
      newWorking.foldl (fun s _ =>
        if seniorWorking.isEmpty then s - 50 else s + 10) s) s) 0
  pairScore + (List.range emps.length).foldl (fun s i =>
    if (emps.getD i defaultEmployee).employmentType == some "part_time" then
      let nights := (sched.filter (fun row => row.getD i 3 == 2)).length
      if nights > 0 then s - (nights : ℚ) * 25 else s
    else s) 0

/-- `_enhanced_pattern_score`: consecutive-day-pair pattern bonuses and
penalties per worker. -/
def enhancedPatternScore (sched : Sched) (emps : List Employee) (days : ℕ) : ℚ :=
  (List.range emps.length).foldl (fun s e =>
    (List.range (days - 1)).foldl (fun s d =>
      let cur := cellAt sched d e
      let next := cellAt sched (d + 1) e
      let s := if cur == 2 && next == 0 then s - 50 else s
      let s := if cur == 2 && next == 1 then s - 20 else s
      let s := if cur == 2 && next == 3 then s + 10 else s
      if !(cur == 3) && cur == next then s + 5 else s) s) 0

/-- Per-request contribution of `_enhanced_preference_score`: 0 whenever
the source skips the request (unknown employee, malformed or missing
date, day outside the horizon, unknown shift-type name, unknown request
type). -/
def preferenceContribution (days : ℕ) (sched : Sched) (emps : List Employee)
    (r : ShiftRequest) : ℚ :=
  match employeeIndex r.employeeId emps with
  | none => 0
  | some eIdx =>
    match requestDayIndex r.requestDate with
    | none => 0
    | some rd =>
      if 0 ≤ rd ∧ rd < (days : ℤ) then
        match indexOfShift r.shiftType with
        | none => 0
        | some reqShift =>
          let assigned := cellAt sched rd.toNat eIdx
          if r.requestType = "request" then
            if assigned == reqShift then 20 else 0 - 10
          else if r.requestType = "avoid" then
            if !(assigned == reqShift) then 20 * (8 / 10) else 0 - 10 * (3 / 2)
          else 0
      else 0

/-- `_enhanced_preference_score`: sum of the per-request contributions. -/
def enhancedPreferenceScore (days : ℕ) (sched : Sched) (emps : List Employee)
    (reqs : List ShiftRequest) : ℚ :=
  reqs.foldl (fun s r => s + preferenceContribution days sched emps r) 0

/-- Population variance (numpy.var): mean of squared deviations. -/
def popVariance (xs : List ℚ) : ℚ :=
  let n : ℚ := xs.length
  let mean := xs.sum / n
  (xs.map (fun x => (x - mean) ^ 2)).sum / n

/-- Shift-type counts of one worker over the whole grid
(`[0, 0, 0, 0]` updated per day). -/
def shiftCountsOf (sched : Sched) (e : ℕ) : List ℕ :=
  (List.range 4).map (fun sh => (sched.filter (fun row => row.getD e 3 == sh)).length)

/-- `_enhanced_fairness_score`: variance penalties on night counts,
total work days and off counts, each under the source's guards. -/
def enhancedFairnessScore (sched : Sched) (emps : List Employee) : ℚ :=
  let counts := (List.range emps.length).map (fun e => shiftCountsOf sched e)
  let nightCounts : List ℕ := counts.map (fun c => c.getD 2 0)
  let s : ℚ := 0
  let s := if nightCounts.length > 1 ∧ nightCounts.foldl max 0 > 0 then
      s - popVariance (nightCounts.map (fun x => (x : ℚ))) * 10 else s
  let workCounts : List ℕ := counts.map (fun c => c.getD 0 0 + c.getD 1 0 + c.getD 2 0)
  let s := if workCounts.length > 1 ∧ workCounts.foldl max 0 > 0 then
      s - popVariance (workCounts.map (fun x => (x : ℚ))) * 5 else s
  let offCounts : List ℕ := counts.map (fun c => c.getD 3 0)
  if offCounts.length > 1 then s - popVariance (offCounts.map (fun x => (x : ℚ))) * 3 else s

/-- `_enhanced_coverage_score`: +10 per met (day, working shift)
requirement plus +2 per surplus worker. -/
def enhancedCoverageScore (sched : Sched) (cons : ConstraintsObj) : ℚ :=
  let req := cons.requiredStaff.getD defaultRequiredStaff
  sched.foldl (fun s row =>
    (List.range 3).foldl (fun s sh =>
      let actual := rowCount row sh
      let required := dictGetD req (shiftTypes.getD sh "") 1
      if actual ≥ required then
        let s := s + 10
        if actual > required then s + ((actual : ℚ) - required) * 2 else s
      else s) s) 0

/-- `_calculate_fitness`: the weighted sum of the seven scoring terms,
with the constraint weights of the source (legal 1000, safety 500, role
50, pattern 30, coverage 100; preference and fairness already
weighted). -/
def calculateFitness (days : ℕ) (sched : Sched) (emps : List Employee)
    (cons : ConstraintsObj) (reqs : List ShiftRequest) : ℚ :=
  legalComplianceScore sched emps.length days * 1000
  + staffingSafetyScore sched cons * 500
  + roleComplianceScore sched emps cons * 50
  + enhancedPatternScore sched emps days * 30
  + enhancedPreferenceScore days sched emps reqs
  + enhancedFairnessScore sched emps
  + enhancedCoverageScore sched cons * 100

/-- True when `_is_request_for_day` returns True: the request's date
resolves to this 0-based day; errors are caught and yield False. -/
def isRequestForDay (r : ShiftRequest) (day : ℕ) : Bool :=
  match requestDayIndex r.requestDate with
  | some rd => rd == (day : ℤ)
  | none => false

/-- Count of the worker's consecutive worked days walking backwards
from the most recent of the given rows, stopping at the first off day
(the loop over `reversed(previous_days[-4:])`). -/
def consecWorkBack (empIdx : ℕ) : List (List ℕ) → ℕ
  | [] => 0
  | row :: rest =>
    if !(row.getD empIdx 3 == 3) then consecWorkBack empIdx rest + 1
    else 0

/-- The last-4-days consecutive-work count of `_can_assign_shift`
(`previous_days[-4:]`, walked most recent first). -/
def consecWorkLast4 (prevDays : List (List ℕ)) (empIdx : ℕ) : ℕ :=
  consecWorkBack empIdx ((prevDays.drop (prevDays.length - 4)).reverse)

/-- `_can_assign_shift`: the three eligibility checks of the initial
constructor (part-time night ban, fifth-consecutive-work-day ban once
four prior days exist, night-to-day ban). -/
def canAssignShift (emp : Employee) (empIdx shiftIdx : ℕ)
    (prevDays : List (List ℕ)) : Bool :=
  if emp.employmentType == some "part_time" && shiftIdx == 2 then false
  else if decide (prevDays.length ≥ 4) &&
      decide (consecWorkLast4 prevDays empIdx ≥ 4) && !(shiftIdx == 3) then false
  else if decide (prevDays.length > 0) &&
      (prevDays.getLastD []).getD empIdx 3 == 2 && shiftIdx == 0 then false
  else true

/-- The leave pass of `_generate_daily_schedule_csp`: walk the requests
in order and force OFF for a matching leave request of a known
employee. -/
def applyLeaves (reqs : List ShiftRequest) (emps : List Employee) (day : ℕ)
    (daily : List ℕ) : List ℕ :=
  reqs.foldl (fun d r =>
    if isRequestForDay r day then
      match employeeIndex r.employeeId emps with
      | some i => if r.requestType = "leave" then d.set i 3 else d
      | none => d
    else d) daily

/-- The inner placement loop of `_generate_daily_schedule_csp`: walk a
snapshot of the available workers, assign the shift to each eligible one
until the required count is reached, removing assigned workers from the
live availability list. Returns the updated day row and availability
list. -/
def fillShift (emps : List Employee) (shiftIdx required : ℕ)
    (prevDays : List (List ℕ)) :
    List ℕ → List ℕ → List ℕ → ℕ → List ℕ × List ℕ
  | [], daily, avail, _ => (daily, avail)
  | i :: rest, daily, avail, count =>
    if count ≥ required then (daily, avail)
    else if canAssignShift (emps.getD i defaultEmployee) i shiftIdx prevDays then
      fillShift emps shiftIdx required prevDays rest
        (daily.set i shiftIdx) (avail.erase i) (count + 1)
    else fillShift emps shiftIdx required prevDays rest daily avail count

/-- One required-staff entry of the placement loop of
`_generate_daily_schedule_csp`: skip the "off" key, fail like the
ValueError of `shift_types.index` on an unknown key, and otherwise run
the placement walk over a snapshot of the availability list. -/
def placeShiftEntry (emps : List Employee) (prevDays : List (List ℕ))
    (acc : Option (List ℕ × List ℕ)) (entry : String × ℕ) :
    Option (List ℕ × List ℕ) :=
  match acc with
  | none => none
  | some st =>
    if entry.1 = "off" then some st
    else
      match indexOfShift entry.1 with
      | none => none
      | some sidx =>
        some (fillShift emps sidx entry.2 prevDays st.2 st.1 st.2 0)

/-- `_generate_daily_schedule_csp`: default everyone OFF, apply leave
requests, then place the required staff per shift entry in dictionary
order. `none` models the ValueError `shift_types.index` raises when a
required-staff key other than "off" is not a shift name. -/
def generateDailySchedule (day : ℕ) (emps : List Employee)
    (cons : ConstraintsObj) (reqs : List ShiftRequest)
    (prevDays : List (List ℕ)) : Option (List ℕ) :=
  let requiredStaff := cons.requiredStaff.getD defaultRequiredStaff
  let daily0 := List.replicate emps.length 3
  let daily1 := applyLeaves reqs emps day daily0
  let avail0 := (List.range emps.length).filter (fun i => daily1.getD i 3 == 3)
  (requiredStaff.foldl (placeShiftEntry emps prevDays)
    (some (daily1, avail0))).map (fun st => st.1)

/-- Day-by-day recursion of `_generate_csp_based_initial_schedule`:
each day is built from the already placed prefix and appended; the
first argument counts the days still to place, the second is the index
of the day being placed. -/
def buildScheduleAux (emps : List Employee) (cons : ConstraintsObj)
    (reqs : List ShiftRequest) : ℕ → ℕ → Sched → Option Sched
  | 0, _, sched => some sched
  | n + 1, day, sched =>
    match generateDailySchedule day emps cons reqs sched with
    | none => none
    | some row => buildScheduleAux emps cons reqs n (day + 1) (sched ++ [row])

/-- `_generate_csp_based_initial_schedule`. -/
def generateCSPInitial (days : ℕ) (emps : List Employee)
    (cons : ConstraintsObj) (reqs : List ShiftRequest) : Option Sched :=
  buildScheduleAux emps cons reqs days 0 []

/-- The scheduler's algorithm parameters (`SchedulingParams`), with the
defaults set in `__init__`. -/
structure SAParams where
  initialTemp : ℚ
  finalTemp : ℚ
  coolingRate : ℚ
  maxIterations : ℕ
  reheatThreshold : ℕ
  reheatFactor : ℚ
deriving DecidableEq

/-- The default parameters: initial_temp 1000, final_temp 0.01,
cooling_rate 0.985, max_iterations 5000, reheat_threshold 100,
reheat_factor 2.0. -/
def defaultSAParams : SAParams := ⟨1000, 1 / 100, 197 / 200, 5000, 100, 2⟩

/-- The acceptance test of `_enhanced_simulated_annealing`:
`delta > 0 or (temperature > 0 and random.random() < exp(delta / temperature))`,
with the uniform draw `u` and the exponential function passed in
explicitly. -/
def metropolisAccept (expFn : ℚ → ℚ) (delta temp u : ℚ) : Bool :=
  decide (delta > 0) || (decide (temp > 0) && decide (u < expFn (delta / temp)))

/-- `SimulatedAnnealingOptimizer._should_accept`: improving neighbors
always accepted, non-improving ones rejected outright at non-positive
temperature and otherwise accepted with probability exp(delta/temp). -/
def shouldAccept (expFn : ℚ → ℚ) (currentScore neighborScore temp u : ℚ) : Bool :=
  if neighborScore > currentScore then true
  else if temp ≤ 0 then false
  else decide (u < expFn ((neighborScore - currentScore) / temp))

/-- The mutable loop state of `_enhanced_simulated_annealing`. -/
structure SAState where
  current : Sched
  currentScore : ℚ
  best : Sched
  bestScore : ℚ
  temperature : ℚ
  noImprovementCount : ℕ
deriving DecidableEq

/-- The acceptance phase of one `_enhanced_simulated_annealing`
iteration: possibly move to the neighbor, update the best solution and
the stagnation counter. -/
def saAcceptPhase (expFn : ℚ → ℚ) (st : SAState) (neighbor : Sched)
    (neighborScore u : ℚ) : SAState :=
  if metropolisAccept expFn (neighborScore - st.currentScore) st.temperature u then
    if neighborScore > st.bestScore then
      { st with
        current := neighbor
        currentScore := neighborScore
        best := neighbor
        bestScore := neighborScore
        noImprovementCount := 0 }
    else
      { st with
        current := neighbor
        currentScore := neighborScore
        noImprovementCount := st.noImprovementCount + 1 }
  else { st with noImprovementCount := st.noImprovementCount + 1 }

/-- One full iteration of `_enhanced_simulated_annealing`: acceptance,
then the adaptive reheat when the stagnation counter has reached the
threshold, then geometric cooling (applied unconditionally). -/
def saStep (expFn : ℚ → ℚ) (cfg : SAParams) (st : SAState) (neighbor : Sched)
    (neighborScore u : ℚ) : SAState :=
  let st1 := saAcceptPhase expFn st neighbor neighborScore u
  let st2 :=
    if st1.noImprovementCount ≥ cfg.reheatThreshold then
      { st1 with
        temperature := st1.temperature * cfg.reheatFactor
        noImprovementCount := 0 }
    else st1
  { st2 with temperature := st2.temperature * cfg.coolingRate }

/-- One always-rejected iteration: the neighbor scores one point below
the current solution and the uniform draw falls exactly on the
acceptance probability, so the Metropolis test fails. -/
def saRejectStep (expFn : ℚ → ℚ) (cfg : SAParams) (st : SAState) : SAState :=
  saStep expFn cfg st st.current (st.currentScore - 1)
    (expFn ((st.currentScore - 1 - st.currentScore) / st.temperature))

/-- A run of `n` always-rejected iterations. -/
def saRejectRun (expFn : ℚ → ℚ) (cfg : SAParams) : SAState → ℕ → SAState
  | st, 0 => st
  | st, n + 1 => saRejectRun expFn cfg (saRejectStep expFn cfg st) n

/-- A candidate produced by `_generate_tabu_neighbors`: the mutated
grid, its move signature string, and its evaluated fitness. -/
structure TabuCand where
  sched : Sched
  move : String
  score : ℚ
deriving DecidableEq

/-- The eligibility test of the Tabu selection loop: the move is not in
the tabu list, or its score exceeds `bestScore * aspiration_threshold`
(0.95). -/
def tabuEligible (tabu : List String) (bestScore : ℚ) (c : TabuCand) : Bool :=
  !(tabu.contains c.move) || decide (c.score > bestScore * (19 / 20))

/-- One comparison of the Tabu selection loop: replace the incumbent by
an eligible candidate of strictly higher score (the first candidate is
compared against float negative infinity, so any eligible candidate
replaces an empty incumbent). -/
def tabuSelectStep (tabu : List String) (bestScore : ℚ)
    (acc : Option TabuCand) (c : TabuCand) : Option TabuCand :=
  if tabuEligible tabu bestScore c then
    match acc with
    | none => some c
    | some b => if c.score > b.score then some c else acc
  else acc

/-- The candidate-selection loop of `_tabu_search`: the highest-scoring
eligible candidate, first-seen winning ties, `none` when no candidate is
eligible. -/
def selectBestEligible (cands : List TabuCand) (tabu : List String)
    (bestScore : ℚ) : Option TabuCand :=
  cands.foldl (tabuSelectStep tabu bestScore) none

/-- Append to the tabu deque with `maxlen` eviction of the oldest
entries. -/
def pushTabu (l : List String) (m : String) (cap : ℕ) : List String :=
  let l2 := l ++ [m]
  if l2.length > cap then l2.drop (l2.length - cap) else l2

/-- The mutable loop state of `_tabu_search` (the tabu deque lives on
`self` but is only touched by this loop). -/
structure TabuState where
  current : Sched
  currentScore : ℚ
  best : Sched
  bestScore : ℚ
  tabuList : List String
  noImprovement : ℕ
deriving DecidableEq

/-- One iteration of `_tabu_search` given the evaluated candidate batch:
select the best eligible candidate, apply it, push its signature on the
tabu deque (capacity 50), update the best solution and the stagnation
counter; keep the current solution when no candidate is eligible. -/
def tabuStep (st : TabuState) (cands : List TabuCand) : TabuState :=
  match selectBestEligible cands st.tabuList st.bestScore with
  | some c =>
    let tl := pushTabu st.tabuList c.move 50
    if c.score > st.bestScore then
      { st with
        current := c.sched
        currentScore := c.score
        best := c.sched
        bestScore := c.score
        tabuList := tl
        noImprovement := 0 }
    else
      { st with
        current := c.sched
        currentScore := c.score
        tabuList := tl
        noImprovement := st.noImprovement + 1 }
  | none => { st with noImprovement := st.noImprovement + 1 }

/-- One pass of `_multi_neighborhood_local_search` over the neighborhood
families in order: `coin` is the per-family weighted coin
(`random.random() < weight`), `cand` the generated neighbor (`none` for
a generator returning None, which the source skips). The first
candidate whose score beats the score of the schedule at the start of
the pass is accepted and the pass stops; the Bool records whether a
move was accepted. -/
def lsPass (score : Sched → ℚ) (cur : Sched) (curScore : ℚ) :
    List (Bool × Option Sched) → Sched × Bool
  | [] => (cur, false)
  | (coin, cand) :: rest =>
    if coin then
      match cand with
      | some nb =>
        if score nb > curScore then (nb, true)
        else lsPass score cur curScore rest
      | none => lsPass score cur curScore rest
    else lsPass score cur curScore rest

/-- `_single_swap_move`: overwrite one cell with a random shift.
`none` models the ValueError `random.randint(0, -1)` raises when the
horizon or the roster is empty. -/
def singleSwapMove (sched : Sched) (numEmps daysInMonth rDay rEmp rShift : ℕ) :
    Option Sched :=
  if daysInMonth = 0 ∨ numEmps = 0 then none
  else some (sched.set rDay ((sched.getD rDay []).set rEmp rShift))

/-- `_shift_rotation_move`: rotate the cells of `min(3, numEmps)`
sampled workers on one day by one position. `none` models the
ValueError of `random.randint(0, -1)` on an empty horizon and the
IndexError of `selected_employees[0]` on an empty roster. The sampled
distinct indices are passed in as `selected`. -/
def shiftRotationMove (sched : Sched) (numEmps daysInMonth rDay : ℕ)
    (selected : List ℕ) : Option Sched :=
  if daysInMonth = 0 then none
  else if numEmps = 0 then none
  else
    let row := sched.getD rDay []
    let tmp := row.getD (selected.getD 0 0) 3
    let rotated := (List.range selected.length).foldl
      (fun r i =>
        if i + 1 < selected.length then
          r.set (selected.getD i 0) (row.getD (selected.getD (i + 1) 0) 3)
        else r.set (selected.getD i 0) tmp)
      row
    some (sched.set rDay rotated)

/-- `_block_move`: overwrite a block of one worker's days with one fresh
shift. `none` models the ValueError of `random.randint(0, -1)` on an
empty roster. -/
def blockMove (sched : Sched) (numEmps daysInMonth rEmp blockSize startDay newShift : ℕ) :
    Option Sched :=
  if numEmps = 0 then none
  else
    some ((List.range blockSize).foldl
      (fun s i =>
        let d := startDay + i
        s.set d ((s.getD d []).set rEmp newShift))
      sched)

/-- `_employee_swap_move`: swap two workers' cells over a window of
`swapDays` days. `none` models the ValueError of
`random.randint(3, min(7, days))` when the horizon is shorter than 3
days and two distinct workers were drawn, and of `random.randint(0, -1)`
on an empty roster. -/
def employeeSwapMove (sched : Sched) (numEmps daysInMonth rE1 rE2 swapDays startDay : ℕ) :
    Option Sched :=
  if numEmps = 0 then none
  else if rE1 = rE2 then some sched
  else if min 7 daysInMonth < 3 then none
  else
    some ((List.range swapDays).foldl
      (fun s i =>
        let d := startDay + i
        let row := s.getD d []
        let a := row.getD rE1 3
        let b := row.getD rE2 3
        s.set d ((row.set rE1 b).set rE2 a))
      sched)

/-- `_check_legal_violations` for one worker: a record when the longest
consecutive-work run exceeds 5 days. -/
def checkLegalViolations (days : ℕ) (sched : Sched) (empIdx : ℕ) (emp : Employee) :
    List String :=
  let mc := maxRun (fun c => !(c == 3)) (empColumn sched days empIdx)
  if mc > 5 then
    ["Employee " ++ toString emp.id ++ ": " ++ toString mc ++
      " consecutive work days (max: 5)"]
  else []

/-- `_check_safety_violations`: a record per under-staffed (day, working
shift). -/
def checkSafetyViolations (sched : Sched) (cons : ConstraintsObj) : List String :=
  let req := cons.requiredStaff.getD defaultRequiredStaff
  (List.range sched.length).foldl (fun acc d =>
    (List.range 3).foldl (fun acc sh =>
      let actual := rowCount (sched.getD d []) sh
      let required := dictGetD req (shiftTypes.getD sh "") 1
      if actual < required then
        acc ++ ["Day " ++ toString (d + 1) ++ ", " ++ shiftTypes.getD sh "" ++
          " shift: " ++ toString actual ++ " staff (required: " ++
          toString required ++ ")"]
      else acc) acc) []

/-- `_check_role_violations`: a record per part-time worker holding
night shifts. -/
def checkRoleViolations (sched : Sched) (emps : List Employee) : List String :=
  (List.range emps.length).foldl (fun acc i =>
    let e := emps.getD i defaultEmployee
    if e.employmentType == some "part_time" then
      let nights := (sched.filter (fun row => row.getD i 3 == 2)).length
      if nights > 0 then
        acc ++ ["Part-time employee " ++ toString e.id ++ " assigned " ++
          toString nights ++ " night shifts"]
      else acc
    else acc) []

/-- The violation report of `_generate_constraint_report`. -/
structure ConstraintReport where
  legalViolations : List String
  safetyViolations : List String
  roleViolations : List String
  patternViolations : List String
  totalViolations : ℕ
deriving DecidableEq

/-- `_generate_constraint_report`: the grouped violation records and
their total count. -/
def generateConstraintReport (days : ℕ) (sched : Sched) (emps : List Employee)
    (cons : ConstraintsObj) : ConstraintReport :=
  let legal := (List.range emps.length).foldl
    (fun acc i => acc ++ checkLegalViolations days sched i (emps.getD i defaultEmployee)) []
  let safety := checkSafetyViolations sched cons
  let role := checkRoleViolations sched emps
  { legalViolations := legal
    safetyViolations := safety
    roleViolations := role
    patternViolations := []
    totalViolations := legal.length + safety.length + role.length }

/-- The mutable fields of the scheduler object that live across method
calls (`self.tabu_list`, `self.best_global_score`,
`self.stagnation_count`); `none` models float negative infinity. -/
structure SchedulerMutState where
  tabuList : List String
  bestGlobalScore : Option ℚ
  stagnationCount : ℕ
deriving DecidableEq

/-- `_calculate_fitness` as a method on the scheduler object: it reads
none of the mutable fields and writes none of them, so the threaded
state passes through untouched. -/
def calculateFitnessSt (st : SchedulerMutState) (days : ℕ) (sched : Sched)
    (emps : List Employee) (cons : ConstraintsObj) (reqs : List ShiftRequest) :
    SchedulerMutState × ℚ :=
  (st, calculateFitness days sched emps cons reqs)

/-- `_generate_constraint_report` as a method on the scheduler object:
it also neither reads nor writes the mutable fields. -/
def generateConstraintReportSt (st : SchedulerMutState) (days : ℕ) (sched : Sched)
    (emps : List Employee) (cons : ConstraintsObj) :
    SchedulerMutState × ConstraintReport :=
  (st, generateConstraintReport days sched emps cons)

/-- A heap object of the preprocessing step: either a constraints
dictionary or an employee dictionary. Addresses are positions in a heap
list; `copy.deepcopy` allocates a fresh address holding an equal value. -/
inductive PyObj where
  | cObj : ConstraintsObj → PyObj
  | eObj : Employee → PyObj
deriving DecidableEq

/-- Read a constraints object from the heap (the source only passes a
constraints dict here, so the employee case is unreachable). -/
def readConstraints (h : List PyObj) (a : ℕ) : ConstraintsObj :=
  match h.getD a (PyObj.cObj emptyConstraints) with
  | PyObj.cObj c => c
  | PyObj.eObj _ => emptyConstraints

/-- Read an employee object from the heap. -/
def readEmployee (h : List PyObj) (a : ℕ) : Employee :=
  match h.getD a (PyObj.eObj defaultEmployee) with
  | PyObj.eObj e => e
  | PyObj.cObj _ => defaultEmployee

/-- `_identify_new_nurse_pairs`: workers with at most one year of
experience (default 1) or the new_nurse role are new; workers with at
least three years are senior; every new worker maps to the full senior
id list. -/
def identifyNewNursePairs (emps : List Employee) : List (ℤ × List ℤ) :=
  let newNurses := (emps.filter (fun e =>
    decide (e.yearsExperience.getD 1 ≤ 1) || (e.role == some "new_nurse"))).map (·.id)
  let seniorNurses := (emps.filter (fun e =>
    !(decide (e.yearsExperience.getD 1 ≤ 1) || (e.role == some "new_nurse")) &&
    decide (e.yearsExperience.getD 1 ≥ 3))).map (·.id)
  newNurses.map (fun n => (n, seniorNurses))

/-- The annotations `_preprocess_constraints` writes into the deep copy
of the constraints dict: per-worker role / employment / experience maps,
the new-nurse pairing candidates, and the required-staff default when
the key is absent. -/
def annotateConstraints (orig : ConstraintsObj) (emps : List Employee) : ConstraintsObj :=
  { orig with
    employeeRoles := some (emps.map (fun e => (e.id, e.role.getD "staff_nurse")))
    employmentTypes := some (emps.map (fun e => (e.id, e.employmentType.getD "full_time")))
    experienceLevels := some (emps.map (fun e => (e.id, e.yearsExperience.getD 1)))
    newNursePairs := some (identifyNewNursePairs emps)
    requiredStaff := some (orig.requiredStaff.getD defaultRequiredStaff) }

/-- `_preprocess_constraints` over the heap: deep-copy the constraints
dict to a fresh address, read the employee dicts, and write every
derived annotation into the fresh copy only; the address of the copy is
returned. -/
def preprocessConstraints (h : List PyObj) (caddr : ℕ) (eaddrs : List ℕ) :
    List PyObj × ℕ :=
  let emps := eaddrs.map (readEmployee h)
  let orig := readConstraints h caddr
  (h ++ [PyObj.cObj (annotateConstraints orig emps)], h.length)

/-- Weekday of the first of January of a Gregorian year by the Gauss
formula, 0 = Sunday. Supporting calendar fact used to place the ISO
weeks of a January horizon; independent of the program. -/
def jan1Weekday (y : ℕ) : ℕ :=
  (1 + 5 * ((y - 1) % 4) + 4 * ((y - 1) % 100) + 6 * ((y - 1) % 400)) % 7

/-- Monday-based index (Monday = 0 ... Sunday = 6) of the first of
January, so that day `d` of the horizon lies in ISO week
`(offset + d) / 7` relative to the ISO week containing day 0. -/
def janMondayOffset (y : ℕ) : ℕ := (jan1Weekday y + 6) % 7

/-- Modelled from the spec wording for comparison with the source: the
days of the horizon partitioned into calendar-aligned ISO weeks (Monday
to Sunday), given the Monday-based weekday of day 0; week `w` of the
horizon is the set of horizon days in the w-th ISO week touching it. -/
def isoWeekDays (days offset w : ℕ) : List ℕ :=
  (List.range days).filter (fun d => (offset + d) / 7 == w)

/-- Modelled from the spec wording: the number of ISO weeks of the
horizon in which the worker has zero off days. -/
def isoZeroOffWeeks (col : List ℕ) (days offset : ℕ) : ℕ :=
  ((List.range ((offset + days + 6) / 7)).filter (fun w =>
    let ds := isoWeekDays days offset w
    !ds.isEmpty && ds.all (fun d => !(col.getD d 3 == 3)))).length

/-- Modelled from the spec wording: the per-worker legal-compliance term
as the claim states it, with the weekly-rest penalty charged per ISO
week of the horizon instead of per 7-day block. -/
def legalPerEmpISO (col : List ℕ) (days offset : ℕ) : ℚ :=
  let mcw := maxRun (fun c => !(c == 3)) col
  let s1 : ℚ := if mcw > 5 then 0 - ((mcw : ℚ) - 5) * 100 else 0
  let mcn := maxRun (fun c => c == 2) col
  let s2 : ℚ := if mcn > 3 then s1 - ((mcn : ℚ) - 3) * 150 else s1
  s2 - 200 * (isoZeroOffWeeks col days offset : ℚ)

/-- Concrete 31-day January horizon for one worker: off for the first
seven days, then 24 consecutive day shifts. -/
def exC4Sched : Sched := (List.range 31).map (fun d => [if d < 7 then 3 else 0])

/-- A concrete full-time staff nurse used in closed instances. -/
def exNurseA : Employee := ⟨1, some "staff_nurse", some "full_time", some 5⟩

/-- A second concrete full-time staff nurse. -/
def exNurseB : Employee := ⟨2, some "staff_nurse", some "full_time", some 4⟩

/-- A concrete shift request whose date lies outside every reachable
horizon (day-of-month 40). -/
def exBadDayRequest : ShiftRequest := ⟨1, ReqDate.withDay 40, "night", "avoid"⟩

/-- A concrete shift request with an unknown shift-type name. -/
def exBadShiftRequest : ShiftRequest := ⟨1, ReqDate.withDay 3, "nigth", "leave"⟩

/-! Theorems. -/

/-- C1. In the simulated-annealing phase an improving candidate
(delta > 0) is always accepted; a non-improving candidate is rejected
outright whenever the temperature is not positive, and in that case the
result does not depend on the exponential function at all (the branch
is never evaluated); at positive temperature a non-improving candidate
is accepted exactly when the uniform draw falls below
exp(delta / temperature); and the `_should_accept` form of the rewrite
agrees with the inline Metropolis test of
`_enhanced_simulated_annealing`. -/
theorem sa_metropolis_acceptance (f g : ℚ → ℚ) (delta temp u cur nb : ℚ) :
    (delta > 0 → metropolisAccept f delta temp u = true)
    ∧ (delta ≤ 0 → temp ≤ 0 → metropolisAccept f delta temp u = false)
    ∧ (temp ≤ 0 → metropolisAccept f delta temp u = metropolisAccept g delta temp u)
    ∧ (delta ≤ 0 → temp > 0 →
        (metropolisAccept f delta temp u = true ↔ u < f (delta / temp)))
    ∧ shouldAccept f cur nb temp u = metropolisAccept f (nb - cur) temp u := by
  unfold metropolisAccept shouldAccept
  refine ⟨?_, ?_, ?_, ?_, ?_⟩
  · intro h; simp [h]
  · intro h ht; simp [not_lt.mpr h, not_lt.mpr ht]
  · intro ht; simp [not_lt.mpr ht]
  · intro h ht; simp [not_lt.mpr h, ht]
  · by_cases h : nb > cur
    · simp [h, sub_pos.mpr h]
    · have hd : ¬ (nb - cur > 0) := by
        intro hc; exact h (by linarith)
      by_cases ht : temp ≤ 0
      · simp [h, ht, not_lt.mpr ht, hd]
      · simp [h, ht, not_le.mp ht, hd]

/-- C1 witness: concrete instances of the acceptance rule at zero
temperature (non-improving candidate rejected) and for an improving
candidate. -/
theorem sa_metropolis_acceptance_witness :
    metropolisAccept (fun x => x) (-1) 0 (1 / 2) = false
    ∧ metropolisAccept (fun x => x) 1 0 (1 / 2) = true
    ∧ metropolisAccept (fun x => x) (-1) 0 (1 / 2)
        = metropolisAccept (fun x => x + 5) (-1) 0 (1 / 2) := by
  refine ⟨?_, ?_, ?_⟩
  · exact (sa_metropolis_acceptance (fun x => x) (fun x => x) (-1) 0 (1 / 2) 0 0).2.1
      (by norm_num) (by norm_num)
  · exact (sa_metropolis_acceptance (fun x => x) (fun x => x) 1 0 (1 / 2) 0 0).1
      (by norm_num)
  · exact (sa_metropolis_acceptance (fun x => x) (fun x => x + 5) (-1) 0 (1 / 2) 0 0).2.2.1
      (by norm_num)

/-- The acceptance phase never changes the temperature. -/
theorem saAcceptPhase_temperature (f : ℚ → ℚ) (st : SAState) (nb : Sched)
    (ns u : ℚ) : (saAcceptPhase f st nb ns u).temperature = st.temperature := by
  unfold saAcceptPhase
  split
  · split <;> rfl
  · rfl

/-- A non-improving candidate whose uniform draw equals its own
acceptance probability is rejected. -/
theorem metropolisAccept_self (f : ℚ → ℚ) (delta temp : ℚ) (h : delta ≤ 0) :
    metropolisAccept f delta temp (f (delta / temp)) = false := by
  unfold metropolisAccept
  simp [not_lt.mpr h, lt_irrefl]

/-- The acceptance phase of an always-rejected iteration only bumps the
stagnation counter. -/
theorem saAcceptPhase_reject (f : ℚ → ℚ) (st : SAState) :
    saAcceptPhase f st st.current (st.currentScore - 1)
      (f ((st.currentScore - 1 - st.currentScore) / st.temperature))
    = { st with noImprovementCount := st.noImprovementCount + 1 } := by
  unfold saAcceptPhase
  rw [metropolisAccept_self f (st.currentScore - 1 - st.currentScore) st.temperature
    (by linarith)]
  simp

/-- Closed form of one always-rejected iteration: counter bump, the
reheat exactly when the counter reaches the threshold, and cooling in
both cases. -/
theorem saRejectStep_eq (f : ℚ → ℚ) (cfg : SAParams) (st : SAState) :
    saRejectStep f cfg st =
      if st.noImprovementCount + 1 ≥ cfg.reheatThreshold then
        { st with
          temperature := st.temperature * cfg.reheatFactor * cfg.coolingRate
          noImprovementCount := 0 }
      else
        { st with
          temperature := st.temperature * cfg.coolingRate
          noImprovementCount := st.noImprovementCount + 1 } := by
  unfold saRejectStep saStep
  rw [saAcceptPhase_reject]
  by_cases h : st.noImprovementCount + 1 ≥ cfg.reheatThreshold
  · simp [h]
  · simp [h]

/-- Splitting a rejected run. -/
theorem saRejectRun_add (f : ℚ → ℚ) (cfg : SAParams) (a : ℕ) :
    ∀ (st : SAState) (b : ℕ),
      saRejectRun f cfg st (a + b) = saRejectRun f cfg (saRejectRun f cfg st a) b := by
  induction a with
  | zero => intro st b; rw [Nat.zero_add]; rfl
  | succ n ih =>
    intro st b
    have : n + 1 + b = (n + b) + 1 := by omega
    rw [this]
    show saRejectRun f cfg (saRejectStep f cfg st) (n + b)
      = saRejectRun f cfg (saRejectRun f cfg (saRejectStep f cfg st) n) b
    exact ih (saRejectStep f cfg st) b

/-- A rejected run short of the reheat threshold cools geometrically
and accumulates stagnation, leaving every other field unchanged. -/
theorem saRejectRun_noReheat (f : ℚ → ℚ) :
    ∀ (j : ℕ) (st : SAState), st.noImprovementCount + j ≤ 99 →
      (saRejectRun f defaultSAParams st j).temperature
          = st.temperature * (197 / 200) ^ j
      ∧ (saRejectRun f defaultSAParams st j).noImprovementCount
          = st.noImprovementCount + j
      ∧ (saRejectRun f defaultSAParams st j).currentScore = st.currentScore
      ∧ (saRejectRun f defaultSAParams st j).current = st.current
      ∧ (saRejectRun f defaultSAParams st j).bestScore = st.bestScore
      ∧ (saRejectRun f defaultSAParams st j).best = st.best := by
  intro j
  induction j with
  | zero =>
    intro st h
    refine ⟨?_, ?_, rfl, rfl, rfl, rfl⟩
    · show st.temperature = st.temperature * (197 / 200 : ℚ) ^ 0
      rw [pow_zero, mul_one]
    · show st.noImprovementCount = st.noImprovementCount + 0
      omega
  | succ n ih =>
    intro st h
    have hstep : saRejectStep f defaultSAParams st =
        { st with
          temperature := st.temperature * (197 / 200 : ℚ)
          noImprovementCount := st.noImprovementCount + 1 } := by
      rw [saRejectStep_eq]
      have : ¬ (st.noImprovementCount + 1 ≥ defaultSAParams.reheatThreshold) := by
        show ¬ (st.noImprovementCount + 1 ≥ 100)
        omega
      rw [if_neg this]
      rfl
    have hrun : saRejectRun f defaultSAParams st (n + 1)
        = saRejectRun f defaultSAParams (saRejectStep f defaultSAParams st) n := rfl
    rw [hrun, hstep]
    have hc : ({ st with
        temperature := st.temperature * (197 / 200 : ℚ)
        noImprovementCount := st.noImprovementCount + 1 } : SAState).noImprovementCount + n
        ≤ 99 := by
      show st.noImprovementCount + 1 + n ≤ 99
      omega
    obtain ⟨h1, h2, h3, h4, h5, h6⟩ := ih _ hc
    refine ⟨?_, ?_, h3, h4, h5, h6⟩
    · rw [h1]
      show st.temperature * (197 / 200 : ℚ) * (197 / 200) ^ n
        = st.temperature * (197 / 200) ^ (n + 1)
      ring
    · rw [h2]
      show st.noImprovementCount + 1 + n = st.noImprovementCount + (n + 1)
      omega

/-- One hundred rejected iterations from a fresh stagnation counter
fire exactly one reheat (doubling) and one hundred coolings. -/
theorem saRejectRun_block (f : ℚ → ℚ) (st : SAState)
    (h : st.noImprovementCount = 0) :
    (saRejectRun f defaultSAParams st 100).temperature
        = st.temperature * 2 * (197 / 200) ^ 100
    ∧ (saRejectRun f defaultSAParams st 100).noImprovementCount = 0
    ∧ (saRejectRun f defaultSAParams st 100).currentScore = st.currentScore
    ∧ (saRejectRun f defaultSAParams st 100).current = st.current
    ∧ (saRejectRun f defaultSAParams st 100).bestScore = st.bestScore
    ∧ (saRejectRun f defaultSAParams st 100).best = st.best := by
  have hsplit : saRejectRun f defaultSAParams st 100
      = saRejectRun f defaultSAParams (saRejectRun f defaultSAParams st 99) 1 := by
    have : (100 : ℕ) = 99 + 1 := rfl
    rw [this, saRejectRun_add]
  obtain ⟨h1, h2, h3, h4, h5, h6⟩ :=
    saRejectRun_noReheat f 99 st (by omega)
  have hone : saRejectRun f defaultSAParams (saRejectRun f defaultSAParams st 99) 1
      = saRejectStep f defaultSAParams (saRejectRun f defaultSAParams st 99) := rfl
  have hstep := saRejectStep_eq f defaultSAParams (saRejectRun f defaultSAParams st 99)
  have hcond : (saRejectRun f defaultSAParams st 99).noImprovementCount + 1
      ≥ defaultSAParams.reheatThreshold := by
    rw [h2, h]
    show 0 + 99 + 1 ≥ 100
    omega
  rw [if_pos hcond] at hstep
  rw [hsplit, hone, hstep]
  refine ⟨?_, rfl, h3, h4, h5, h6⟩
  show (saRejectRun f defaultSAParams st 99).temperature * defaultSAParams.reheatFactor
      * defaultSAParams.coolingRate = st.temperature * 2 * (197 / 200) ^ 100
  rw [h1]
  show st.temperature * (197 / 200 : ℚ) ^ 99 * 2 * (197 / 200)
      = st.temperature * 2 * (197 / 200) ^ 100
  ring

/-- Arbitrarily many reheats fire across consecutive stagnation spans:
after 100*k rejected iterations the temperature carries the factor 2^k
from k reheats alongside the 100*k coolings. -/
theorem saRejectRun_mult (f : ℚ → ℚ) :
    ∀ (k : ℕ) (st : SAState), st.noImprovementCount = 0 →
      (saRejectRun f defaultSAParams st (100 * k)).temperature
          = st.temperature * 2 ^ k * (197 / 200) ^ (100 * k)
      ∧ (saRejectRun f defaultSAParams st (100 * k)).noImprovementCount = 0 := by
  intro k
  induction k with
  | zero =>
    intro st h
    constructor
    · show st.temperature = st.temperature * 2 ^ 0 * (197 / 200 : ℚ) ^ (100 * 0)
      norm_num
    · exact h
  | succ n ih =>
    intro st h
    have hsplit : saRejectRun f defaultSAParams st (100 * (n + 1))
        = saRejectRun f defaultSAParams (saRejectRun f defaultSAParams st 100) (100 * n) := by
      have : 100 * (n + 1) = 100 + 100 * n := by ring
      rw [this, saRejectRun_add]
    obtain ⟨hb1, hb2, _, _, _, _⟩ := saRejectRun_block f st h
    obtain ⟨hm1, hm2⟩ := ih (saRejectRun f defaultSAParams st 100) hb2
    rw [hsplit]
    refine ⟨?_, hm2⟩
    rw [hm1, hb1]
    ring

/-- C2. In the simulated-annealing phase of `scheduler.py`, whenever the
stagnation counter has reached the reheat threshold (100) after the
acceptance phase, the temperature is multiplied by the reheat factor
(2.0) and the counter is reset, and the cooling multiplication by 0.985
is still applied in the same iteration; when the threshold is not
reached only the cooling applies; and reheating is unbounded: a run of
100*k always-rejected iterations fires k reheats, leaving temperature
initialTemp * 2^k * 0.985^(100*k). -/
theorem sa_reheat_unbounded_and_always_cooled :
    (∀ (f : ℚ → ℚ) (st : SAState) (nb : Sched) (ns u : ℚ),
      (saAcceptPhase f st nb ns u).noImprovementCount ≥ 100 →
      (saStep f defaultSAParams st nb ns u).temperature
          = st.temperature * 2 * (197 / 200)
      ∧ (saStep f defaultSAParams st nb ns u).noImprovementCount = 0)
    ∧ (∀ (f : ℚ → ℚ) (st : SAState) (nb : Sched) (ns u : ℚ),
      (saAcceptPhase f st nb ns u).noImprovementCount < 100 →
      (saStep f defaultSAParams st nb ns u).temperature
          = st.temperature * (197 / 200)
      ∧ (saStep f defaultSAParams st nb ns u).noImprovementCount
          = (saAcceptPhase f st nb ns u).noImprovementCount)
    ∧ (∀ (f : ℚ → ℚ) (st : SAState) (k : ℕ), st.noImprovementCount = 0 →
      (saRejectRun f defaultSAParams st (100 * k)).temperature
          = st.temperature * 2 ^ k * (197 / 200) ^ (100 * k)) := by
  refine ⟨?_, ?_, ?_⟩
  · intro f st nb ns u h
    have hcond : (saAcceptPhase f st nb ns u).noImprovementCount
        ≥ defaultSAParams.reheatThreshold := h
    simp only [saStep]
    rw [if_pos hcond]
    constructor
    · show (saAcceptPhase f st nb ns u).temperature * defaultSAParams.reheatFactor
          * defaultSAParams.coolingRate = st.temperature * 2 * (197 / 200)
      rw [saAcceptPhase_temperature]
      rfl
    · rfl
  · intro f st nb ns u h
    have hcond : ¬ ((saAcceptPhase f st nb ns u).noImprovementCount
        ≥ defaultSAParams.reheatThreshold) := by
      show ¬ ((saAcceptPhase f st nb ns u).noImprovementCount ≥ 100)
      omega
    simp only [saStep]
    rw [if_neg hcond]
    constructor
    · show (saAcceptPhase f st nb ns u).temperature * defaultSAParams.coolingRate
          = st.temperature * (197 / 200)
      rw [saAcceptPhase_temperature]
      rfl
    · rfl
  · intro f st k h
    exact (saRejectRun_mult f k st h).1

/-- C2 witness: from a fresh state at the default initial temperature,
100 rejected iterations reheat once and cool 100 times; an iteration
whose acceptance phase leaves the counter at 99 only cools. -/
theorem sa_reheat_unbounded_and_always_cooled_witness :
    (saRejectRun (fun x => x) defaultSAParams
        ⟨[[3]], 0, [[3]], 0, 1000, 0⟩ (100 * 1)).temperature
      = 1000 * 2 ^ 1 * (197 / 200) ^ (100 * 1)
    ∧ (saStep (fun _ => 0) defaultSAParams ⟨[[3]], 0, [[3]], 0, 500, 50⟩ [[3]]
        (-1) 1).temperature = 500 * (197 / 200) := by
  constructor
  · exact sa_reheat_unbounded_and_always_cooled.2.2 (fun x => x)
      ⟨[[3]], 0, [[3]], 0, 1000, 0⟩ 1 rfl
  · refine (sa_reheat_unbounded_and_always_cooled.2.1 (fun _ => 0)
      ⟨[[3]], 0, [[3]], 0, 500, 50⟩ [[3]] (-1) 1 ?_).1
    show (saAcceptPhase (fun _ => 0) ⟨[[3]], 0, [[3]], 0, 500, 50⟩ [[3]] (-1) 1).noImprovementCount < 100
    have : saAcceptPhase (fun _ => 0) ⟨[[3]], 0, [[3]], 0, 500, 50⟩ [[3]] (-1) 1
        = { (⟨[[3]], 0, [[3]], 0, 500, 50⟩ : SAState) with noImprovementCount := 50 + 1 } := by
      unfold saAcceptPhase
      have hacc : metropolisAccept (fun _ => 0)
          ((-1) - (⟨[[3]], 0, [[3]], 0, 500, 50⟩ : SAState).currentScore)
          (⟨[[3]], 0, [[3]], 0, 500, 50⟩ : SAState).temperature 1 = false := by
        unfold metropolisAccept
        norm_num
      rw [hacc]
      simp
    rw [this]
    show 50 + 1 < 100
    omega

/-- The acceptance phase never decreases the tracked best score. -/
theorem saAcceptPhase_best_mono (f : ℚ → ℚ) (st : SAState) (nb : Sched)
    (ns u : ℚ) : st.bestScore ≤ (saAcceptPhase f st nb ns u).bestScore := by
  unfold saAcceptPhase
  by_cases hacc : metropolisAccept f (ns - st.currentScore) st.temperature u = true
  · rw [if_pos hacc]
    by_cases himp : ns > st.bestScore
    · rw [if_pos himp]
      exact le_of_lt himp
    · rw [if_neg himp]
  · rw [if_neg hacc]

/-- The reheat and cooling phases do not touch the best score. -/
theorem saStep_bestScore (f : ℚ → ℚ) (cfg : SAParams) (st : SAState) (nb : Sched)
    (ns u : ℚ) :
    (saStep f cfg st nb ns u).bestScore = (saAcceptPhase f st nb ns u).bestScore := by
  simp only [saStep]
  split <;> rfl

/-- An accepted local-search pass returns a strictly better schedule;
any pass returns one at least as good. -/
theorem lsPass_mono (score : Sched → ℚ) (cur : Sched) :
    ∀ (cands : List (Bool × Option Sched)),
      (∀ res, lsPass score cur (score cur) cands = (res, true) → score cur < score res)
      ∧ score cur ≤ score (lsPass score cur (score cur) cands).1 := by
  intro cands
  induction cands with
  | nil =>
    constructor
    · intro res h
      have : cur = res ∧ False := by
        have := congrArg Prod.snd h
        simp [lsPass] at this
      exact absurd this.2 id
    · exact le_refl _
  | cons hd tl ih =>
    obtain ⟨c, cand⟩ := hd
    constructor
    · intro res h
      by_cases hc : c = true
      · subst hc
        cases cand with
        | none =>
          simp only [lsPass] at h
          exact ih.1 res h
        | some nb =>
          simp only [lsPass] at h
          by_cases hs : score nb > score cur
          · rw [if_pos hs] at h
            have : nb = res := congrArg Prod.fst h
            rw [← this]
            exact hs
          · rw [if_neg hs] at h
            exact ih.1 res h
      · have hc2 : c = false := by
          cases c
          · rfl
          · exact absurd rfl hc
        subst hc2
        simp only [lsPass] at h
        exact ih.1 res h
    · by_cases hc : c = true
      · subst hc
        cases cand with
        | none =>
          simp only [lsPass]
          exact ih.2
        | some nb =>
          simp only [lsPass]
          by_cases hs : score nb > score cur
          · rw [if_pos hs]
            exact le_of_lt hs
          · rw [if_neg hs]
            exact ih.2
      · have hc2 : c = false := by
          cases c
          · rfl
          · exact absurd rfl hc
        subst hc2
        simp only [lsPass]
        exact ih.2

/-- C8. Within the simulated-annealing iteration and the tabu-search
iteration the tracked best score never decreases; within a
multi-neighborhood local-search pass the current score strictly
increases on every accepted move and never decreases otherwise. -/
theorem phase_score_monotonicity :
    (∀ (f : ℚ → ℚ) (cfg : SAParams) (st : SAState) (nb : Sched) (ns u : ℚ),
      st.bestScore ≤ (saStep f cfg st nb ns u).bestScore)
    ∧ (∀ (st : TabuState) (cands : List TabuCand),
      st.bestScore ≤ (tabuStep st cands).bestScore)
    ∧ (∀ (score : Sched → ℚ) (cur res : Sched) (cands : List (Bool × Option Sched)),
      lsPass score cur (score cur) cands = (res, true) → score cur < score res)
    ∧ (∀ (score : Sched → ℚ) (cur : Sched) (cands : List (Bool × Option Sched)),
      score cur ≤ score (lsPass score cur (score cur) cands).1) := by
  refine ⟨?_, ?_, ?_, ?_⟩
  · intro f cfg st nb ns u
    rw [saStep_bestScore]
    exact saAcceptPhase_best_mono f st nb ns u
  · intro st cands
    unfold tabuStep
    cases hsel : selectBestEligible cands st.tabuList st.bestScore with
    | none => exact le_refl _
    | some c =>
      dsimp only
      by_cases himp : c.score > st.bestScore
      · rw [if_pos himp]
        exact le_of_lt himp
      · rw [if_neg himp]
  · intro score cur res cands
    exact (lsPass_mono score cur cands).1 res
  · intro score cur cands
    exact (lsPass_mono score cur cands).2

/-- C8 witness: a concrete accepted local-search move on a one-worker,
two-day instance strictly improves the fitness of the schedule. -/
theorem phase_score_monotonicity_witness :
    calculateFitness 2 [[3], [3]] [exNurseA] emptyConstraints []
      < calculateFitness 2 [[2], [3]] [exNurseA] emptyConstraints [] := by
  have hpass : lsPass (fun s => calculateFitness 2 s [exNurseA] emptyConstraints [])
      [[3], [3]]
      ((fun s => calculateFitness 2 s [exNurseA] emptyConstraints []) [[3], [3]])
      [(true, some [[2], [3]])] = ([[2], [3]], true) := by
    with_unfolding_all rfl
  exact phase_score_monotonicity.2.2.1
    (fun s => calculateFitness 2 s [exNurseA] emptyConstraints [])
    [[3], [3]] [[2], [3]] [(true, some [[2], [3]])] hpass

/-- The selection fold only ever returns eligible candidates. -/
theorem selectFold_eligible (tabu : List String) (bestScore : ℚ) :
    ∀ (cands : List TabuCand) (acc : Option TabuCand),
      (∀ b, acc = some b → tabuEligible tabu bestScore b = true) →
      ∀ c, cands.foldl (tabuSelectStep tabu bestScore) acc = some c →
        tabuEligible tabu bestScore c = true := by
  intro cands
  induction cands with
  | nil =>
    intro acc hacc c h
    exact hacc c h
  | cons hd tl ih =>
    intro acc hacc c h
    refine ih (tabuSelectStep tabu bestScore acc hd) ?_ c h
    intro b hb
    unfold tabuSelectStep at hb
    by_cases he : tabuEligible tabu bestScore hd = true
    · rw [if_pos he] at hb
      cases hacc2 : acc with
      | none =>
        rw [hacc2] at hb
        simp at hb
        rw [← hb]
        exact he
      | some a =>
        rw [hacc2] at hb
        dsimp only at hb
        by_cases hgt : hd.score > a.score
        · rw [if_pos hgt] at hb
          simp at hb
          rw [← hb]
          exact he
        · rw [if_neg hgt] at hb
          exact hacc b (hacc2.trans hb)
    · rw [if_neg he] at hb
      exact hacc b hb

/-- C3. In a tabu-search iteration, a candidate whose move signature is
currently in the tabu list is selected as the applied move only when
its fitness exceeds bestScore times the aspiration threshold 0.95. -/
theorem tabu_respects_tabu_list (tabu : List String) (bestScore : ℚ)
    (cands : List TabuCand) (c : TabuCand)
    (hsel : selectBestEligible cands tabu bestScore = some c)
    (htabu : tabu.contains c.move = true) :
    c.score > bestScore * (19 / 20) := by
  have he : tabuEligible tabu bestScore c = true := by
    refine selectFold_eligible tabu bestScore cands none ?_ c hsel
    intro b hb
    exact absurd hb (by simp)
  unfold tabuEligible at he
  rw [htabu] at he
  simp at he
  exact he

/-- C3 witness: a concrete tabu candidate is selected because its score
100 clears the aspiration bar 10 * 0.95. -/
theorem tabu_respects_tabu_list_witness :
    (100 : ℚ) > 10 * (19 / 20) := by
  refine tabu_respects_tabu_list ["single_swap_1234"] 10
    [⟨[[0]], "single_swap_1234", 100⟩] ⟨[[0]], "single_swap_1234", 100⟩ ?_ ?_
  · with_unfolding_all rfl
  · rfl

/-- C6. The search phases are not total: on a zero-worker roster every
move generator raises (ValueError from `random.randint(0, -1)` or
IndexError from indexing an empty sample), and on a one-day horizon an
employee-swap between two distinct workers raises ValueError from
`random.randint(3, 1)`; the phases therefore abort instead of returning
a grid. The `none` results are exactly those raises. -/
theorem move_generators_raise_on_degenerate_inputs :
    singleSwapMove [] 0 31 0 0 0 = none
    ∧ shiftRotationMove [] 0 31 0 [] = none
    ∧ blockMove [] 0 31 0 2 0 0 = none
    ∧ employeeSwapMove [[3, 3]] 2 1 0 1 3 0 = none
    ∧ singleSwapMove [[3], [3]] 1 2 0 0 1
        = some [[1], [3]] := by
  refine ⟨rfl, rfl, rfl, rfl, rfl⟩

/-- C9. The fitness evaluator and the violation-report generator are
deterministic and idempotent: they leave the scheduler's mutable state
unchanged, their results do not depend on that state, and two
consecutive calls on the same grid, roster, constraints and requests
return the identical score and the identical violation report. -/
theorem fitness_evaluator_deterministic_idempotent :
    ∀ (st : SchedulerMutState) (days : ℕ) (sched : Sched) (emps : List Employee)
      (cons : ConstraintsObj) (reqs : List ShiftRequest),
      (calculateFitnessSt st days sched emps cons reqs).1 = st
      ∧ (calculateFitnessSt (calculateFitnessSt st days sched emps cons reqs).1
          days sched emps cons reqs).2
        = (calculateFitnessSt st days sched emps cons reqs).2
      ∧ (∀ st2, (calculateFitnessSt st2 days sched emps cons reqs).2
          = (calculateFitnessSt st days sched emps cons reqs).2)
      ∧ (generateConstraintReportSt st days sched emps cons).1 = st
      ∧ (generateConstraintReportSt (generateConstraintReportSt st days sched emps cons).1
          days sched emps cons).2
        = (generateConstraintReportSt st days sched emps cons).2
      ∧ (∀ st2, (generateConstraintReportSt st2 days sched emps cons).2
          = (generateConstraintReportSt st days sched emps cons).2) := by
  intro st days sched emps cons reqs
  exact ⟨rfl, rfl, fun _ => rfl, rfl, rfl, fun _ => rfl⟩

/-- Getting an element of a list extended on the right, inside the
original range. -/
theorem getD_append_lt {α : Type} (l l2 : List α) (i : ℕ) (d : α) (h : i < l.length) :
    (l ++ l2).getD i d = l.getD i d := by
  induction l generalizing i with
  | nil => exact absurd h (by simp)
  | cons hd tl ih =>
    cases i with
    | zero => rfl
    | succ n =>
      have : n < tl.length := by
        simpa using h
      exact ih n this

/-- Getting the freshly appended element. -/
theorem getD_append_self {α : Type} (l : List α) (a d : α) :
    (l ++ [a]).getD l.length d = a := by
  induction l with
  | nil => rfl
  | cons hd tl ih => exact ih

/-- C10. The constraint preprocessor mutates none of its inputs: it
returns a fresh address past the caller's heap, every object the caller
already held (the raw constraints mapping and every roster record) is
unchanged, and all derived annotations sit only in the returned deep
copy, which is the annotated image of the original mapping. -/
theorem preprocess_constraints_frame_effect
    (h : List PyObj) (caddr : ℕ) (eaddrs : List ℕ) (hc : caddr < h.length) :
    (preprocessConstraints h caddr eaddrs).2 = h.length
    ∧ h.length < (preprocessConstraints h caddr eaddrs).1.length
    ∧ (∀ i, i < h.length →
        (preprocessConstraints h caddr eaddrs).1.getD i (PyObj.cObj emptyConstraints)
          = h.getD i (PyObj.cObj emptyConstraints))
    ∧ readConstraints (preprocessConstraints h caddr eaddrs).1
        (preprocessConstraints h caddr eaddrs).2
      = annotateConstraints (readConstraints h caddr) (eaddrs.map (readEmployee h)) := by
  refine ⟨rfl, ?_, ?_, ?_⟩
  · show h.length < (h ++ [_]).length
    simp
  · intro i hi
    exact getD_append_lt h _ i _ hi
  · show readConstraints
        (h ++ [PyObj.cObj (annotateConstraints (readConstraints h caddr)
          (eaddrs.map (readEmployee h)))]) h.length = _
    unfold readConstraints
    rw [getD_append_self]

/-- C10 witness: on a concrete two-object heap the preprocessor leaves
both caller objects untouched and appends the annotated copy at the
fresh address 2. -/
theorem preprocess_constraints_frame_effect_witness :
    (preprocessConstraints [PyObj.cObj emptyConstraints, PyObj.eObj exNurseA] 0 [1]).2 = 2
    ∧ (preprocessConstraints [PyObj.cObj emptyConstraints, PyObj.eObj exNurseA] 0 [1]).1.getD 0
        (PyObj.cObj emptyConstraints) = PyObj.cObj emptyConstraints
    ∧ (preprocessConstraints [PyObj.cObj emptyConstraints, PyObj.eObj exNurseA] 0 [1]).1.getD 1
        (PyObj.cObj emptyConstraints) = PyObj.eObj exNurseA
    ∧ readConstraints
        (preprocessConstraints [PyObj.cObj emptyConstraints, PyObj.eObj exNurseA] 0 [1]).1
        (preprocessConstraints [PyObj.cObj emptyConstraints, PyObj.eObj exNurseA] 0 [1]).2
      = annotateConstraints emptyConstraints [exNurseA] := by
  obtain ⟨h1, _, h3, h4⟩ := preprocess_constraints_frame_effect
    [PyObj.cObj emptyConstraints, PyObj.eObj exNurseA] 0 [1] (by simp)
  refine ⟨h1, h3 0 (by simp), h3 1 (by simp), ?_⟩
  rw [h4]
  rfl

/-- The weekly fold of the legal score subtracts 200 per penalized
block. -/
theorem foldl_weekSub (p : ℕ → Bool) :
    ∀ (l : List ℕ) (z : ℚ),
      l.foldl (fun s w => if p w then s - 200 else s) z
        = z - 200 * ((l.filter p).length : ℚ) := by
  intro l
  induction l with
  | nil =>
    intro z
    simp
  | cons hd tl ih =>
    intro z
    by_cases hp : p hd = true
    · have : List.foldl (fun s w => if p w then s - 200 else s) z (hd :: tl)
          = List.foldl (fun s w => if p w then s - 200 else s) (z - 200) tl := by
        show List.foldl _ (if p hd then z - 200 else z) tl = _
        rw [if_pos hp]
      rw [this, ih]
      rw [List.filter_cons_of_pos hp]
      push_cast [List.length_cons]
      ring
    · have hp2 : ¬ p hd = true := hp
      have : List.foldl (fun s w => if p w then s - 200 else s) z (hd :: tl)
          = List.foldl (fun s w => if p w then s - 200 else s) z tl := by
        show List.foldl _ (if p hd then z - 200 else z) tl = _
        rw [if_neg hp2]
      rw [this, ih, List.filter_cons_of_neg hp2]

/-- A fold accumulating a mapped summand is the sum of the images. -/
theorem foldl_add_map {α : Type} (f : α → ℚ) :
    ∀ (l : List α) (z : ℚ),
      l.foldl (fun s e => s + f e) z = z + (l.map f).sum := by
  intro l
  induction l with
  | nil =>
    intro z
    simp
  | cons hd tl ih =>
    intro z
    show List.foldl _ (z + f hd) tl = _
    rw [ih]
    simp [add_assoc]

/-- The per-worker legal term as the spec's table writes it:
three independent summands over 7-day blocks. -/
theorem legalPerEmp_formula (col : List ℕ) (days : ℕ) :
    legalPerEmp col days =
      (if maxRun (fun c => !(c == 3)) col > 5 then
          -100 * ((maxRun (fun c => !(c == 3)) col : ℚ) - 5) else 0)
      + (if maxRun (fun c => c == 2) col > 3 then
          -150 * ((maxRun (fun c => c == 2) col : ℚ) - 3) else 0)
      - 200 * (((List.range (weekCount days)).filter
          (fun w => weekOffCount col days w == 0)).length : ℚ) := by
  unfold legalPerEmp
  rw [foldl_weekSub]
  by_cases h1 : maxRun (fun c => !(c == 3)) col > 5
  · rw [if_pos h1, if_pos h1]
    by_cases h2 : maxRun (fun c => c == 2) col > 3
    · rw [if_pos h2, if_pos h2]
      ring
    · rw [if_neg h2, if_neg h2]
      ring
  · rw [if_neg h1, if_neg h1]
    by_cases h2 : maxRun (fun c => c == 2) col > 3
    · rw [if_pos h2, if_pos h2]
      ring
    · rw [if_neg h2, if_neg h2]
      ring

/-- C4 (amended). The legal-compliance term of the fitness function
contributes, per worker, -100 times the excess over 5 of the longest
consecutive-work run, -150 times the excess over 3 of the longest
consecutive-night run, and -200 for each consecutive 7-day block of the
horizon (days 0-6, 7-13, ..., final partial block included) in which
the worker has zero off days; the whole term carries weight 1000 in the
total score. -/
theorem fitness_legal_term_weight1000 (days : ℕ) (sched : Sched)
    (emps : List Employee) (cons : ConstraintsObj) (reqs : List ShiftRequest) :
    calculateFitness days sched emps cons reqs =
      1000 * (((List.range emps.length).map (fun e =>
        (if maxRun (fun c => !(c == 3)) (empColumn sched days e) > 5 then
            -100 * ((maxRun (fun c => !(c == 3)) (empColumn sched days e) : ℚ) - 5)
          else 0)
        + (if maxRun (fun c => c == 2) (empColumn sched days e) > 3 then
            -150 * ((maxRun (fun c => c == 2) (empColumn sched days e) : ℚ) - 3)
          else 0)
        - 200 * (((List.range (weekCount days)).filter
            (fun w => weekOffCount (empColumn sched days e) days w == 0)).length : ℚ))).sum)
      + staffingSafetyScore sched cons * 500
      + roleComplianceScore sched emps cons * 50
      + enhancedPatternScore sched emps days * 30
      + enhancedPreferenceScore days sched emps reqs
      + enhancedFairnessScore sched emps
      + enhancedCoverageScore sched cons * 100 := by
  unfold calculateFitness legalComplianceScore
  rw [foldl_add_map]
  simp only [legalPerEmp_formula]
  ring

/-- C4 counterexample: on a 31-day January-2025 horizon (day 0 is a
Wednesday, Monday-offset 2) with one worker off for the first seven
days and working the remaining 24, the source's legal score is -2700
(four penalized 7-day blocks), while charging -200 per ISO week with
zero off days as the claim states gives -2500 (three penalized ISO
weeks); the claimed ISO-week reading of the term is therefore false on
the code. -/
theorem legal_week_penalty_not_ISO_counterexample :
    legalComplianceScore exC4Sched 1 31 = -2700
    ∧ janMondayOffset 2025 = 2
    ∧ legalPerEmpISO (empColumn exC4Sched 31 0) 31 2 = -2500
    ∧ legalComplianceScore exC4Sched 1 31
        ≠ legalPerEmpISO (empColumn exC4Sched 31 0) 31 2 := by
  have h1 : legalComplianceScore exC4Sched 1 31 = -2700 := by
    with_unfolding_all rfl
  have h2 : legalPerEmpISO (empColumn exC4Sched 31 0) 31 2 = -2500 := by
    with_unfolding_all rfl
  refine ⟨h1, rfl, h2, ?_⟩
  rw [h1, h2]
  norm_num

/-- Cell lookup after a single write. -/
theorem getD_set_nat :
    ∀ (l : List ℕ) (i v j : ℕ),
      (l.set i v).getD j 3 = if i = j ∧ i < l.length then v else l.getD j 3 := by
  intro l
  induction l with
  | nil =>
    intro i v j
    simp
  | cons hd tl ih =>
    intro i v j
    cases i with
    | zero =>
      cases j with
      | zero => simp
      | succ m => simp
    | succ n =>
      cases j with
      | zero =>
        have : ¬ (n + 1 = 0 ∧ n + 1 < (hd :: tl).length) := by omega
        rw [if_neg this]
        rfl
      | succ m =>
        show (tl.set n v).getD m 3 = _
        rw [ih n v m]
        by_cases hc : n = m ∧ n < tl.length
        · rw [if_pos hc, if_pos (by simp only [List.length_cons]; omega)]
        · rw [if_neg hc, if_neg (by simp only [List.length_cons]; omega)]
          rfl

/-- The placement walk only writes cells the eligibility test approved:
every cell of the produced day row is OFF or holds a shift the worker
passed `_can_assign_shift` for. -/
theorem fillShift_guard (emps : List Employee) (sidx req : ℕ)
    (prev : List (List ℕ)) :
    ∀ (toVisit daily avail : List ℕ) (count : ℕ),
      (∀ i, daily.getD i 3 = 3 ∨
        canAssignShift (emps.getD i defaultEmployee) i (daily.getD i 3) prev = true) →
      ∀ i, (fillShift emps sidx req prev toVisit daily avail count).1.getD i 3 = 3 ∨
        canAssignShift (emps.getD i defaultEmployee) i
          ((fillShift emps sidx req prev toVisit daily avail count).1.getD i 3) prev
          = true := by
  intro toVisit
  induction toVisit with
  | nil =>
    intro daily avail count hg i
    exact hg i
  | cons j rest ih =>
    intro daily avail count hg i
    by_cases hcnt : count ≥ req
    · have : fillShift emps sidx req prev (j :: rest) daily avail count
          = (daily, avail) := by
        simp only [fillShift]
        rw [if_pos hcnt]
      rw [this]
      exact hg i
    · by_cases hca : canAssignShift (emps.getD j defaultEmployee) j sidx prev = true
      · have : fillShift emps sidx req prev (j :: rest) daily avail count
            = fillShift emps sidx req prev rest (daily.set j sidx) (avail.erase j)
              (count + 1) := by
          simp only [fillShift]
          rw [if_neg hcnt, if_pos hca]
        rw [this]
        refine ih (daily.set j sidx) (avail.erase j) (count + 1) ?_ i
        intro m
        rw [getD_set_nat]
        by_cases hm : j = m ∧ j < daily.length
        · rw [if_pos hm]
          right
          rw [← hm.1]
          exact hca
        · rw [if_neg hm]
          exact hg m
      · have : fillShift emps sidx req prev (j :: rest) daily avail count
            = fillShift emps sidx req prev rest daily avail count := by
          simp only [fillShift]
          rw [if_neg hcnt, if_neg hca]
        rw [this]
        exact ih daily avail count hg i

/-- Every cell of the all-OFF row reads 3. -/
theorem getD_replicate_three : ∀ (n i : ℕ), (List.replicate n (3 : ℕ)).getD i 3 = 3 := by
  intro n
  induction n with
  | zero =>
    intro i
    cases i <;> rfl
  | succ m ih =>
    intro i
    cases i with
    | zero => rfl
    | succ k => exact ih k

/-- Writing OFF into the all-OFF row is the identity. -/
theorem set_replicate_three : ∀ (n i : ℕ), (List.replicate n (3 : ℕ)).set i 3 = List.replicate n 3 := by
  intro n
  induction n with
  | zero =>
    intro i
    rfl
  | succ m ih =>
    intro i
    cases i with
    | zero => rfl
    | succ k =>
      show 3 :: (List.replicate m (3 : ℕ)).set k 3 = 3 :: List.replicate m 3
      rw [ih k]

/-- The leave pass of the constructor leaves the all-OFF row unchanged:
each leave request only ever writes the OFF code the row already holds. -/
theorem applyLeaves_replicate (emps : List Employee) (day n : ℕ) :
    ∀ (reqs : List ShiftRequest),
      applyLeaves reqs emps day (List.replicate n 3) = List.replicate n 3 := by
  intro reqs
  have step : ∀ (r : ShiftRequest) (d : List ℕ), d = List.replicate n 3 →
      (if isRequestForDay r day then
        match employeeIndex r.employeeId emps with
        | some i => if r.requestType = "leave" then d.set i 3 else d
        | none => d
      else d) = List.replicate n 3 := by
    intro r d hd
    subst hd
    by_cases hreq : isRequestForDay r day = true
    · rw [if_pos hreq]
      cases employeeIndex r.employeeId emps with
      | none => rfl
      | some i =>
        by_cases hl : r.requestType = "leave"
        · dsimp only
          rw [if_pos hl, set_replicate_three]
        · dsimp only
          rw [if_neg hl]
    · rw [if_neg hreq]
  show List.foldl _ (List.replicate n 3) reqs = List.replicate n 3
  induction reqs with
  | nil => rfl
  | cons r rest ih =>
    show List.foldl _ (if isRequestForDay r day then _ else _) rest = _
    rw [step r (List.replicate n 3) rfl]
    exact ih

/-- Folding the placement over the remaining entries never recovers
from a raised ValueError. -/
theorem placeFold_none (emps : List Employee) (prev : List (List ℕ)) :
    ∀ (entries : List (String × ℕ)),
      entries.foldl (placeShiftEntry emps prev) none = none := by
  intro entries
  induction entries with
  | nil => rfl
  | cons e rest ih => exact ih

/-- The placement fold preserves the eligibility guard on the day row. -/
theorem placeFold_guard (emps : List Employee) (prev : List (List ℕ)) :
    ∀ (entries : List (String × ℕ)) (st : List ℕ × List ℕ),
      (∀ i, st.1.getD i 3 = 3 ∨
        canAssignShift (emps.getD i defaultEmployee) i (st.1.getD i 3) prev = true) →
      ∀ out, entries.foldl (placeShiftEntry emps prev) (some st) = some out →
        (∀ i, out.1.getD i 3 = 3 ∨
          canAssignShift (emps.getD i defaultEmployee) i (out.1.getD i 3) prev = true) := by
  intro entries
  induction entries with
  | nil =>
    intro st hg out hout i
    have : st = out := by
      simpa using hout
    rw [← this]
    exact hg i
  | cons e rest ih =>
    intro st hg out hout i
    by_cases ho : e.1 = "off"
    · have : placeShiftEntry emps prev (some st) e = some st := by
        unfold placeShiftEntry
        dsimp only
        rw [if_pos ho]
      rw [List.foldl_cons, this] at hout
      exact ih st hg out hout i
    · cases hix : indexOfShift e.1 with
      | none =>
        have : placeShiftEntry emps prev (some st) e = none := by
          unfold placeShiftEntry
          dsimp only
          rw [if_neg ho, hix]
        rw [List.foldl_cons, this, placeFold_none] at hout
        exact absurd hout (by simp)
      | some sidx =>
        have : placeShiftEntry emps prev (some st) e
            = some (fillShift emps sidx e.2 prev st.2 st.1 st.2 0) := by
          unfold placeShiftEntry
          dsimp only
          rw [if_neg ho, hix]
        rw [List.foldl_cons, this] at hout
        refine ih _ ?_ out hout i
        intro m
        exact fillShift_guard emps sidx e.2 prev st.2 st.1 st.2 0 hg m

/-- Every non-OFF cell of a constructed day row passed
`_can_assign_shift` for exactly the shift it holds. -/
theorem generateDailySchedule_guard (day : ℕ) (emps : List Employee)
    (cons : ConstraintsObj) (reqs : List ShiftRequest) (prev : List (List ℕ))
    (daily : List ℕ)
    (h : generateDailySchedule day emps cons reqs prev = some daily) :
    ∀ i, daily.getD i 3 = 3 ∨
      canAssignShift (emps.getD i defaultEmployee) i (daily.getD i 3) prev = true := by
  simp only [generateDailySchedule] at h
  rw [applyLeaves_replicate] at h
  cases hfold : (cons.requiredStaff.getD defaultRequiredStaff).foldl
      (placeShiftEntry emps prev)
      (some (List.replicate emps.length 3,
        (List.range emps.length).filter
          (fun i => (List.replicate emps.length (3 : ℕ)).getD i 3 == 3))) with
  | none =>
    rw [hfold] at h
    exact absurd h (by simp)
  | some st =>
    rw [hfold] at h
    have hst : st.1 = daily := by
      simpa using h
    intro i
    rw [← hst]
    refine placeFold_guard emps prev _ _ ?_ st hfold i
    intro m
    left
    exact getD_replicate_three emps.length m

/-- Taking a prefix shorter than the left part of an append. -/
theorem take_append_le {α : Type} :
    ∀ (l l2 : List α) (d : ℕ), d ≤ l.length → (l ++ l2).take d = l.take d := by
  intro l
  induction l with
  | nil =>
    intro l2 d h
    have : d = 0 := by simpa using h
    rw [this]
    rfl
  | cons hd tl ih =>
    intro l2 d h
    cases d with
    | zero => rfl
    | succ m =>
      show hd :: (tl ++ l2).take m = hd :: tl.take m
      rw [ih l2 m (by simpa using h)]

/-- The eligibility guard carries through the day-by-day construction:
every non-OFF cell of the built prefix passed `_can_assign_shift`
against the days already placed. -/
theorem buildScheduleAux_guard (emps : List Employee) (cons : ConstraintsObj)
    (reqs : List ShiftRequest) :
    ∀ (n day : ℕ) (sched : Sched), day = sched.length →
      (∀ d, d < sched.length → ∀ i, cellAt sched d i = 3 ∨
        canAssignShift (emps.getD i defaultEmployee) i (cellAt sched d i)
          (sched.take d) = true) →
      ∀ out, buildScheduleAux emps cons reqs n day sched = some out →
        (∀ d, d < out.length → ∀ i, cellAt out d i = 3 ∨
          canAssignShift (emps.getD i defaultEmployee) i (cellAt out d i)
            (out.take d) = true) := by
  intro n
  induction n with
  | zero =>
    intro day sched hday hg out hout
    have : sched = out := by simpa [buildScheduleAux] using hout
    rw [← this]
    exact hg
  | succ m ih =>
    intro day sched hday hg out hout
    simp only [buildScheduleAux] at hout
    cases hrow : generateDailySchedule day emps cons reqs sched with
    | none =>
      rw [hrow] at hout
      exact absurd hout (by simp)
    | some row =>
      rw [hrow] at hout
      refine ih (day + 1) (sched ++ [row]) (by simp [hday]) ?_ out hout
      intro d hd i
      rw [List.length_append, List.length_singleton] at hd
      by_cases hdl : d < sched.length
      · have hc : cellAt (sched ++ [row]) d i = cellAt sched d i := by
          unfold cellAt
          rw [getD_append_lt sched [row] d [] hdl]
        have ht : (sched ++ [row]).take d = sched.take d :=
          take_append_le sched [row] d (le_of_lt hdl)
        rw [hc, ht]
        exact hg d hdl i
      · have hdeq : d = sched.length := by omega
        have hc : cellAt (sched ++ [row]) d i = row.getD i 3 := by
          unfold cellAt
          rw [hdeq, getD_append_self]
        have ht : (sched ++ [row]).take d = sched := by
          rw [hdeq]
          exact List.take_left sched [row]
        rw [hc, ht]
        exact generateDailySchedule_guard day emps cons reqs sched row hrow i

/-- Unfolding a passed `_can_assign_shift` test into its three
conditions. -/
theorem canAssignShift_true_elim (e : Employee) (empIdx s : ℕ)
    (prev : List (List ℕ)) (h : canAssignShift e empIdx s prev = true) :
    ¬ (e.employmentType = some "part_time" ∧ s = 2)
    ∧ ¬ (prev.length ≥ 4 ∧ consecWorkLast4 prev empIdx ≥ 4 ∧ s ≠ 3)
    ∧ ¬ (prev.length > 0 ∧ (prev.getLastD []).getD empIdx 3 = 2 ∧ s = 0) := by
  unfold canAssignShift at h
  by_cases h1 : (e.employmentType == some "part_time" && s == 2) = true
  · rw [if_pos h1] at h
    exact absurd h (by simp)
  · rw [if_neg h1] at h
    by_cases h2 : (decide (prev.length ≥ 4) && decide (consecWorkLast4 prev empIdx ≥ 4)
        && !(s == 3)) = true
    · rw [if_pos h2] at h
      exact absurd h (by simp)
    · rw [if_neg h2] at h
      by_cases h3 : (decide (prev.length > 0)
          && (prev.getLastD []).getD empIdx 3 == 2 && s == 0) = true
      · rw [if_pos h3] at h
        exact absurd h (by simp)
      · refine ⟨?_, ?_, ?_⟩
        · intro hc
          refine h1 ?_
          simp only [Bool.and_eq_true, beq_iff_eq]
          exact ⟨hc.1, hc.2⟩
        · intro hc
          refine h2 ?_
          simp only [Bool.and_eq_true, decide_eq_true_eq, Bool.not_eq_eq_eq_not,
            Bool.not_true, beq_eq_false_iff_ne]
          exact ⟨⟨hc.1, hc.2.1⟩, hc.2.2⟩
        · intro hc
          refine h3 ?_
          simp only [Bool.and_eq_true, decide_eq_true_eq, beq_iff_eq]
          exact ⟨⟨hc.1, hc.2.1⟩, hc.2.2⟩

/-- C5. During initial construction every assigned Day/Evening/Night
cell passed the three eligibility conditions: the worker is not
part-time when the shift is Night; once at least four previously placed
days exist, the worker's last four placed days were not all worked
while the new shift is also worked; and the immediately preceding
day's shift was not Night when the new shift is Day. -/
theorem constructor_assigns_only_if_eligible (days : ℕ) (emps : List Employee)
    (cons : ConstraintsObj) (reqs : List ShiftRequest) (sched : Sched)
    (h : generateCSPInitial days emps cons reqs = some sched)
    (d i : ℕ) (hd : d < sched.length) (hcell : cellAt sched d i ≠ 3) :
    canAssignShift (emps.getD i defaultEmployee) i (cellAt sched d i)
      (sched.take d) = true
    ∧ ¬ ((emps.getD i defaultEmployee).employmentType = some "part_time"
        ∧ cellAt sched d i = 2)
    ∧ ¬ ((sched.take d).length ≥ 4 ∧ consecWorkLast4 (sched.take d) i ≥ 4)
    ∧ ¬ ((sched.take d).length > 0
        ∧ ((sched.take d).getLastD []).getD i 3 = 2 ∧ cellAt sched d i = 0) := by
  have hguard := buildScheduleAux_guard emps cons reqs days 0 []
    rfl (by intro d2 hd2; exact absurd hd2 (by simp)) sched h
  have hca : canAssignShift (emps.getD i defaultEmployee) i (cellAt sched d i)
      (sched.take d) = true := by
    cases hguard d hd i with
    | inl h3 => exact absurd h3 hcell
    | inr hc => exact hc
  obtain ⟨p1, p2, p3⟩ := canAssignShift_true_elim _ i (cellAt sched d i) _ hca
  refine ⟨hca, p1, ?_, p3⟩
  intro hc
  exact p2 ⟨hc.1, hc.2, hcell⟩

/-- C5 witness: a concrete two-worker two-day construction; the cell of
worker 0 on day 1 holds a Day shift and the three conditions hold for
it. -/
theorem constructor_assigns_only_if_eligible_witness :
    generateCSPInitial 2 [exNurseA, exNurseB] emptyConstraints []
        = some [[0, 0], [0, 0]]
    ∧ cellAt [[0, 0], [0, 0]] 1 0 ≠ 3
    ∧ canAssignShift ([exNurseA, exNurseB].getD 0 defaultEmployee) 0
        (cellAt [[0, 0], [0, 0]] 1 0) ([[0, 0], [0, 0]].take 1) = true := by
  have hgen : generateCSPInitial 2 [exNurseA, exNurseB] emptyConstraints []
      = some [[0, 0], [0, 0]] := by decide
  refine ⟨hgen, by decide, ?_⟩
  exact (constructor_assigns_only_if_eligible 2 [exNurseA, exNurseB]
    emptyConstraints [] [[0, 0], [0, 0]] hgen 1 0 (by decide) (by decide)).1

/-- C7. A shift request whose resolved day index lies outside the
planning horizon, or whose shift-type name is unknown, contributes
nothing to the preference term, leaves the preference total of any
request list unchanged, and leaves the constructed day rows of the
initial constructor unchanged — the run never aborts on it. -/
theorem malformed_requests_skipped (days : ℕ) (sched : Sched)
    (emps : List Employee) (r : ShiftRequest)
    (hbad : (∃ rd, requestDayIndex r.requestDate = some rd
        ∧ (rd < 0 ∨ (days : ℤ) ≤ rd))
      ∨ indexOfShift r.shiftType = none) :
    preferenceContribution days sched emps r = 0
    ∧ (∀ reqs, enhancedPreferenceScore days sched emps (reqs ++ [r])
        = enhancedPreferenceScore days sched emps reqs)
    ∧ (∀ (day : ℕ) (cons : ConstraintsObj) (reqs : List ShiftRequest)
        (prev : List (List ℕ)),
        generateDailySchedule day emps cons (reqs ++ [r]) prev
          = generateDailySchedule day emps cons reqs prev) := by
  have hzero : preferenceContribution days sched emps r = 0 := by
    unfold preferenceContribution
    cases employeeIndex r.employeeId emps with
    | none => rfl
    | some eIdx =>
      dsimp only
      cases hrd : requestDayIndex r.requestDate with
      | none => rfl
      | some rd =>
        dsimp only
        by_cases hin : 0 ≤ rd ∧ rd < (days : ℤ)
        · rw [if_pos hin]
          cases hix : indexOfShift r.shiftType with
          | none => rfl
          | some k =>
            exfalso
            cases hbad with
            | inl hout =>
              obtain ⟨rd2, hrd2, hr2⟩ := hout
              rw [hrd] at hrd2
              have : rd = rd2 := by
                injection hrd2
              rw [← this] at hr2
              cases hr2 with
              | inl hlt => exact absurd hin.1 (by omega)
              | inr hge => exact absurd hin.2 (by omega)
            | inr hix2 => exact absurd hix (by rw [hix2]; simp)
        · rw [if_neg hin]
  refine ⟨hzero, ?_, ?_⟩
  · intro reqs
    unfold enhancedPreferenceScore
    rw [foldl_add_map, foldl_add_map, List.map_append, List.sum_append]
    simp [hzero]
  · intro day cons reqs prev
    simp only [generateDailySchedule]
    rw [applyLeaves_replicate, applyLeaves_replicate]

/-- C7 witness: a request dated day-of-month 40 on a 31-day horizon
contributes zero preference score, and appending a leave request with
the misspelled shift name "nigth" does not change the constructed day
row. -/
theorem malformed_requests_skipped_witness :
    preferenceContribution 31 exC4Sched [exNurseA] exBadDayRequest = 0
    ∧ generateDailySchedule 0 [exNurseA, exNurseB] emptyConstraints
        ([] ++ [exBadShiftRequest]) []
      = generateDailySchedule 0 [exNurseA, exNurseB] emptyConstraints [] [] := by
  constructor
  · exact (malformed_requests_skipped 31 exC4Sched [exNurseA] exBadDayRequest
      (Or.inl ⟨39, rfl, by norm_num⟩)).1
  · exact (malformed_requests_skipped 31 [] [exNurseA, exNurseB] exBadShiftRequest
      (Or.inr rfl)).2.2 0 emptyConstraints [] []
